import Mathlib

/-!
Verification development for the SKI+ train-formation-view parsing engine.

The definitions below are a shallow embedding of the formation-string parsing
code of `FormationService` (formation.service.ts): tokenizer, bracket
extractor, sector segmenter, vehicle-group parser, vehicle-token decoder,
section assembler, cross-section stitcher and travel-direction resolver.
Strings are modelled as `List Char`; JavaScript regular-expression scans are
translated into explicit left-to-right scanning functions with the same
leftmost-match and greedy/backtracking behaviour on the character classes the
original patterns use.  JavaScript `Map` (insertion-ordered) is modelled as an
association list whose `set` updates in place and appends new keys.
-/

set_option maxHeartbeats 1000000

abbrev Str := List Char

/-- `[A-Z]` character-class test used by the sector and attribute patterns. -/
def isUpperAZ (c : Char) : Bool := 'A' ≤ c && c ≤ 'Z'

/-- Model of JavaScript `String.prototype.startsWith`. -/
def startsWithL (s pre : Str) : Bool := pre.isPrefixOf s

/-- Model of JavaScript `String.prototype.endsWith`. -/
def endsWithL (s suf : Str) : Bool := suf.reverse.isPrefixOf s.reverse

/-- Model of JavaScript `String.prototype.includes` (substring containment). -/
def listIncludes (hay needle : Str) : Bool :=
  match hay with
  | [] => needle.isEmpty
  | _ :: t => needle.isPrefixOf hay || listIncludes t needle

/-- Model of JavaScript `String.prototype.trim` (strip surrounding whitespace). -/
def trimL (s : Str) : Str :=
  ((s.dropWhile Char.isWhitespace).reverse.dropWhile Char.isWhitespace).reverse

/-- Split on a set of single-character delimiters (auxiliary scanner). -/
def splitAux (isDelim : Char → Bool) : Str → Str → List Str
  | acc, [] => [acc.reverse]
  | acc, c :: rest =>
    if isDelim c then acc.reverse :: splitAux isDelim [] rest
    else splitAux isDelim (c :: acc) rest

/-- Model of `segment.split(/[,\\]/)`. -/
def splitOnCB (s : Str) : List Str := splitAux (fun c => c == ',' || c == '\\') [] s

/-- Model of `s.split(c)` for a single-character separator. -/
def splitOnChar (c : Char) (s : Str) : List Str := splitAux (fun d => d == c) [] s

/-- Index of the first occurrence of a character (JS `indexOf`). -/
def idxOf? (s : Str) (c : Char) : Option Nat :=
  match s with
  | [] => none
  | d :: rest => if d = c then some 0 else (idxOf? rest c).map (· + 1)

/-- Index of the first occurrence of a character at or after `start`
(JS `indexOf(c, start)`). -/
def idxOfFrom? (s : Str) (c : Char) (start : Nat) : Option Nat :=
  (idxOf? (s.drop start) c).map (· + start)

/-- Token kinds of the formation-string parser (`enum TokenType`). -/
inductive TokenType where
  | SECTOR
  | FICTITIOUS_WAGON
  | BRACKET_OPEN
  | BRACKET_CLOSE
  | PARENTHESIS_OPEN
  | PARENTHESIS_CLOSE
  | COMMA
  | BACKSLASH
  | VEHICLE
  | UNKNOWN
deriving DecidableEq, Repr

/-- A token of the formation-string tokenizer (`interface FormationToken`). -/
structure FormationToken where
  type : TokenType
  value : Str
  position : Nat
deriving DecidableEq, Repr

/-- A passenger-facing wagon attribute (`interface WagonAttribute`). -/
structure WagonAttribute where
  code : Str
  label : Str
  icon : Str
deriving DecidableEq, Repr

/-- Occupancy decoration attached by the occupancy merger (icon + label). -/
structure OccupancyInfo where
  icon : Str
  label : Str
deriving DecidableEq, Repr

/-- One physical vehicle of the parsed train (`interface TrainWagon`). -/
structure TrainWagon where
  position : Nat
  number : Str
  type : Str
  typeLabel : Str
  classes : List Char
  attributes : List WagonAttribute
  noAccessToPrevious : Bool
  noAccessToNext : Bool
  noAccessMessage : Option Str
  sector : Str
  statusCodes : List Str
  firstClassOccupancy : Option OccupancyInfo
  secondClassOccupancy : Option OccupancyInfo
deriving DecidableEq, Repr

/-- A sector section of the parsed train (`interface TrainSection`). -/
structure TrainSection where
  sector : Str
  wagons : List TrainWagon
deriving DecidableEq, Repr

/-- Wagon status strings (`enum WagonStatus`). -/
def statusClosed : Str := "Closed".toList

def statusGroupBoarding : Str := "Group boarding".toList

def statusReservedForTransit : Str := "Reserved for transit".toList

def statusUnserviced : Str := "Open but unserviced".toList

/-- Wagon type codes tested by `isPotentialWagonToken`. -/
def wagonTypeCodes : List Str :=
  ["1".toList, "2".toList, "12".toList, "CC".toList, "FA".toList, "WL".toList,
   "WR".toList, "W1".toList, "W2".toList, "LK".toList, "D".toList, "K".toList,
   "X".toList]

/-- `isPotentialWagonToken`: a token may be a wagon if it starts with a status
character or contains a wagon type code. -/
def isPotentialWagonToken (token : Str) : Bool :=
  startsWithL token ['-'] || startsWithL token ['>'] ||
  startsWithL token ['='] || startsWithL token ['%'] ||
  wagonTypeCodes.any (fun code => listIncludes token code)

/-- `createToken`: classify a flushed free-text buffer. -/
def createToken (value : Str) (position : Nat) : FormationToken :=
  if startsWithL value ['@'] ∧ value.length > 1 then ⟨TokenType.SECTOR, value, position⟩
  else if value = ['F'] then ⟨TokenType.FICTITIOUS_WAGON, value, position⟩
  else if isPotentialWagonToken value then ⟨TokenType.VEHICLE, value, position⟩
  else ⟨TokenType.UNKNOWN, value, position⟩

/-- Structural single-character tokens of the tokenizer. -/
def structTokenType (c : Char) : Option TokenType :=
  if c = '[' then some TokenType.BRACKET_OPEN
  else if c = ']' then some TokenType.BRACKET_CLOSE
  else if c = '(' then some TokenType.PARENTHESIS_OPEN
  else if c = ')' then some TokenType.PARENTHESIS_CLOSE
  else if c = ',' then some TokenType.COMMA
  else if c = '\\' then some TokenType.BACKSLASH
  else none

/-- Character loop of `tokenizeFormationString`; `cur` is the free-text buffer
(in reverse), `pos` the running token position counter.  The two-character
patterns implement the one-character lookahead of the `'@'` handler while
keeping the recursion structural. -/
def tokenizeAux : Str → Str → Nat → List FormationToken
  | [], cur, pos => if cur.isEmpty then [] else [createToken cur.reverse pos]
  | [c], cur, pos =>
    if c = '@' then
      if cur.isEmpty then [⟨TokenType.SECTOR, ['@'], pos⟩]
      else [createToken cur.reverse pos, ⟨TokenType.SECTOR, ['@'], pos + 1⟩]
    else
      match structTokenType c with
      | some tt =>
        if cur.isEmpty then [⟨tt, [c], pos⟩]
        else [createToken cur.reverse pos, ⟨tt, [c], pos + 1⟩]
      | none =>
        if c = 'F' ∧ cur.isEmpty then [⟨TokenType.FICTITIOUS_WAGON, ['F'], pos⟩]
        else [createToken (c :: cur).reverse pos]
  | c :: d :: rest, cur, pos =>
    if c = '@' then
      if isUpperAZ d then
        if cur.isEmpty then
          ⟨TokenType.SECTOR, ['@', d], pos⟩ :: tokenizeAux rest [] (pos + 1)
        else
          createToken cur.reverse pos ::
            ⟨TokenType.SECTOR, ['@', d], pos + 1⟩ :: tokenizeAux rest [] (pos + 2)
      else
        if cur.isEmpty then
          ⟨TokenType.SECTOR, ['@'], pos⟩ :: tokenizeAux (d :: rest) [] (pos + 1)
        else
          createToken cur.reverse pos ::
            ⟨TokenType.SECTOR, ['@'], pos + 1⟩ :: tokenizeAux (d :: rest) [] (pos + 2)
    else
      match structTokenType c with
      | some tt =>
        if cur.isEmpty then ⟨tt, [c], pos⟩ :: tokenizeAux (d :: rest) [] (pos + 1)
        else
          createToken cur.reverse pos ::
            ⟨tt, [c], pos + 1⟩ :: tokenizeAux (d :: rest) [] (pos + 2)
      | none =>
        if c = 'F' ∧ cur.isEmpty then
          ⟨TokenType.FICTITIOUS_WAGON, ['F'], pos⟩ :: tokenizeAux (d :: rest) [] (pos + 1)
        else tokenizeAux (d :: rest) (c :: cur) pos

/-- `tokenizeFormationString`: split a string into formation tokens. -/
def tokenizeFormationString (s : Str) : List FormationToken := tokenizeAux s [] 0

/-- Depth-tracking scan of `extractBracketContent`.  `acc = some a` records
that the start offset has been set and `a` is the content collected so far
(JS keeps a `start` index; collecting the characters is equivalent). -/
def ebcAux (o c : Char) : Str → Int → Option Str → Option Str
  | [], _, _ => none
  | ch :: rest, depth, acc =>
    if ch = o then
      match acc with
      | none => ebcAux o c rest (depth + 1) (if depth = 0 then some [] else none)
      | some a => ebcAux o c rest (depth + 1) (some (a ++ [ch]))
    else if ch = c then
      match acc with
      | some a => if depth - 1 = 0 then some a else ebcAux o c rest (depth - 1) (some (a ++ [ch]))
      | none => ebcAux o c rest (depth - 1) none
    else
      match acc with
      | some a => ebcAux o c rest depth (some (a ++ [ch]))
      | none => ebcAux o c rest depth none

/-- `extractBracketContent`: content strictly inside the first balanced
delimiter span, or `none`. -/
def extractBracketContent (s : Str) (o c : Char) : Option Str := ebcAux o c s 0 none

/-- The ordered wagon type code table of `determineWagonType`.  The source
iterates the object with `Object.entries`, and ECMAScript enumerates
integer-like keys (`"1"`, `"2"`, `"12"`, in ascending numeric order) before
the remaining string keys (in insertion order: `LK`, `CC`, `FA`, `FZ`, `WL`,
`WR`, `W1`, `W2`, `D`, `K`, `X`), so that is the iteration order modelled
here. -/
def typeMapping : List (Str × Str) :=
  [("1".toList, "first-class".toList),
   ("2".toList, "second-class".toList),
   ("12".toList, "first-and-second-class".toList),
   ("LK".toList, "locomotive".toList),
   ("CC".toList, "couchette".toList),
   ("FA".toList, "second-class".toList),
   ("FZ".toList, "second-class".toList),
   ("WL".toList, "sleeper".toList),
   ("WR".toList, "restaurant".toList),
   ("W1".toList, "restaurant-first".toList),
   ("W2".toList, "restaurant-second".toList),
   ("D".toList, "baggage".toList),
   ("K".toList, "classless".toList),
   ("X".toList, "parked".toList)]

/-- Test of the anchored pattern `^CODE(?:[:#,]|$)`. -/
def prefixCodeMatch (code token : Str) : Bool :=
  code.isPrefixOf token &&
    (match token.drop code.length with
     | [] => true
     | c :: _ => c == ':' || c == '#' || c == ',')

/-- `determineWagonType`: exact-prefix match over the code table, falling back
to substring containment, defaulting to `"wagon"`. -/
def determineWagonType (token : Str) : Str :=
  match typeMapping.find? (fun p => prefixCodeMatch p.1 token) with
  | some p => p.2
  | none =>
    match typeMapping.find? (fun p => listIncludes token p.1) with
    | some p => p.2
    | none => "wagon".toList

/-- The label table of `getTypeLabel`. -/
def typeLabels : List (Str × Str) :=
  [("locomotive".toList, "Locomotive".toList),
   ("first-class".toList, "1st Class Coach".toList),
   ("second-class".toList, "2nd Class Coach".toList),
   ("first-and-second-class".toList, "1st & 2nd Class Coach".toList),
   ("couchette".toList, "Couchette Compartments".toList),
   ("sleeper".toList, "Sleeping compartments".toList),
   ("restaurant".toList, "2nd Class Coach".toList),
   ("restaurant-first".toList, "1st Class Coach".toList),
   ("restaurant-second".toList, "2nd Class Coach".toList),
   ("baggage".toList, "Baggage Car".toList),
   ("classless".toList, "Classless Coach".toList),
   ("parked".toList, "Parked Vehicle".toList),
   ("wagon".toList, "Coach".toList)]

/-- `getTypeLabel`: human-readable label for a wagon type, default `"Coach"`. -/
def getTypeLabel (t : Str) : Str :=
  match typeLabels.find? (fun p => p.1 = t) with
  | some p => p.2
  | none => "Coach".toList

/-- Delimiters accepted after a class digit by the class-marker patterns
(`[:#,@\)\]]`). -/
def classDelim (c : Char) : Bool :=
  c == ':' || c == '#' || c == ',' || c == '@' || c == ')' || c == ']'

/-- Test of `^<d>(?:[:#,@\)\]]|$)` for a class digit `d`. -/
def classAtStart (d : Char) (s : Str) : Bool :=
  match s with
  | c :: rest =>
    c == d && (match rest with | [] => true | e :: _ => classDelim e)
  | [] => false

/-- Test of `^12(?:[:#,@\)\]]|$)`. -/
def class12AtStart (s : Str) : Bool :=
  match s with
  | '1' :: '2' :: rest => (match rest with | [] => true | e :: _ => classDelim e)
  | _ => false

/-- Scan for `X<d>(?:[:#,@\)\]]|$)` where `X` is drawn from `pres`
(the `[,@]<d>` and `\(<d>` patterns). -/
def classAfterPre (pres : List Char) (d : Char) : Str → Bool
  | [] => false
  | [_] => false
  | a :: b :: rest =>
    (pres.contains a && b == d &&
      (match rest with | [] => true | e :: _ => classDelim e)) ||
    classAfterPre pres d (b :: rest)

/-- Test of the anchored `^([12])(?::|\):|,:|@:)(\d+)` pattern; returns the
captured class digit. -/
def classNumberMatch (s : Str) : Option Char :=
  match s with
  | c :: rest =>
    if c = '1' ∨ c = '2' then
      if (match rest with | ':' :: d :: _ => d.isDigit | _ => false) then some c
      else if (match rest with | ')' :: ':' :: d :: _ => d.isDigit | _ => false) then some c
      else if (match rest with | ',' :: ':' :: d :: _ => d.isDigit | _ => false) then some c
      else if (match rest with | '@' :: ':' :: d :: _ => d.isDigit | _ => false) then some c
      else none
    else none
  | [] => none

/-- `determineWagonClasses`: service classes of a wagon token. -/
def determineWagonClasses (token : Str) : List Char :=
  if listIncludes token "FA".toList || listIncludes token "FZ".toList then ['2']
  else
    let ct0 := token.dropWhile (fun c => c == '-' || c == '=' || c == '>' || c == '%')
    let ct1 := if startsWithL ct0 ['('] then ct0.drop 1 else ct0
    let ct := if endsWithL ct1 [')'] then ct1.dropLast else ct1
    match classNumberMatch ct with
    | some c => [c]
    | none =>
      if listIncludes ct "WR".toList then ['2']
      else if listIncludes ct "W1".toList then ['1']
      else if listIncludes ct "W2".toList then ['2']
      else
        (if classAtStart '1' ct || class12AtStart ct ||
            classAfterPre [',', '@'] '1' ct || classAfterPre ['('] '1' ct
         then ['1'] else []) ++
        (if classAtStart '2' ct || class12AtStart ct ||
            classAfterPre [',', '@'] '2' ct || classAfterPre ['('] '2' ct
         then ['2'] else [])

/-- Greedy-with-backtracking attempt of `(\d{1,3})(?:[:#]|$|\)|\])` at a fixed
position, trying capture lengths 3, 2, 1 in order. -/
def p1Try (rest : Str) : List Nat → Option Str
  | [] => none
  | n :: ns =>
    if n ≤ (rest.takeWhile Char.isDigit).length then
      match rest.drop n with
      | [] => some (rest.take n)
      | d :: _ =>
        if d == ':' || d == '#' || d == ')' || d == ']' then some (rest.take n)
        else p1Try rest ns
    else p1Try rest ns

/-- Leftmost match of `/[,:](\d{1,3})(?:[:#]|$|\)|\])/`; returns the capture. -/
def ordnrP1 : Str → Option Str
  | [] => none
  | c :: rest =>
    match (if c = ',' ∨ c = ':' then p1Try rest [3, 2, 1] else none) with
    | some d => some d
    | none => ordnrP1 rest

/-- Attempt of `(\d{1,3}):(\d{1,3})` at a fixed position, first capture tried
greedily; returns the second capture. -/
def p2Try (s : Str) : List Nat → Option Str
  | [] => none
  | n :: ns =>
    if n ≤ (s.takeWhile Char.isDigit).length then
      match s.drop n with
      | ':' :: u =>
        let d2 := (u.takeWhile Char.isDigit).take 3
        if d2.isEmpty then p2Try s ns else some d2
      | _ => p2Try s ns
    else p2Try s ns

/-- Leftmost match of `/(\d{1,3}):(\d{1,3})/`; returns the second capture. -/
def ordnrP2 : Str → Option Str
  | [] => none
  | c :: rest =>
    match p2Try (c :: rest) [3, 2, 1] with
    | some d => some d
    | none => ordnrP2 rest

/-- `extractOrdnr`: the wagon's ordinal number, if present (pattern 1 first;
for the `N:N` pattern the second number is taken). -/
def extractOrdnr (token : Str) : Option Str :=
  match ordnrP1 token with
  | some d => some d
  | none => ordnrP2 token

/-- Leftmost match of `/#([A-Z;]+)/`; returns the capture. -/
def offerMatch : Str → Option Str
  | [] => none
  | '#' :: rest =>
    let run := rest.takeWhile (fun ch => isUpperAZ ch || ch == ';')
    if run.isEmpty then offerMatch rest else some run
  | _ :: rest => offerMatch rest

/-- The attribute code table used inside `parseWagonAttributes` (note: its
`CC` label differs from the one in `getAttributeObject`). -/
def offerMappingToken (code : Str) : Option (Str × Str) :=
  if code = "BHP".toList then some ("Wheelchair Spaces".toList, "wheelchair".toList)
  else if code = "BZ".toList then some ("Business Zone".toList, "business".toList)
  else if code = "FZ".toList then some ("Family Zone".toList, "family".toList)
  else if code = "KW".toList then some ("Stroller Platform".toList, "stroller".toList)
  else if code = "NF".toList then some ("Low Floor Access".toList, "accessible".toList)
  else if code = "VH".toList then some ("Bike Hooks".toList, "bicycle".toList)
  else if code = "VR".toList then some ("Bike Hooks Reservation Required".toList, "bicycle-reserved".toList)
  else if code = "WL".toList then some ("Sleeping compartments".toList, "sleep".toList)
  else if code = "CC".toList then some ("Couchette".toList, "couchette".toList)
  else none

/-- The attribute code table of `getAttributeObject`. -/
def offerMappingGroup (code : Str) : Option (Str × Str) :=
  if code = "BHP".toList then some ("Wheelchair Spaces".toList, "wheelchair".toList)
  else if code = "BZ".toList then some ("Business Zone".toList, "business".toList)
  else if code = "FZ".toList then some ("Family Zone".toList, "family".toList)
  else if code = "KW".toList then some ("Stroller Platform".toList, "stroller".toList)
  else if code = "NF".toList then some ("Low Floor Access".toList, "accessible".toList)
  else if code = "VH".toList then some ("Bike Hooks".toList, "bicycle".toList)
  else if code = "VR".toList then some ("Bike Hooks Reservation Required".toList, "bicycle-reserved".toList)
  else if code = "WL".toList then some ("Sleeping compartments".toList, "sleep".toList)
  else if code = "CC".toList then some ("Couchette Compartments".toList, "couchette".toList)
  else none

/-- `getAttributeObject`: resolve one attribute code, or `none`. -/
def getAttributeObject (code : Str) : Option WagonAttribute :=
  match offerMappingGroup code with
  | some p => some ⟨code, p.1, p.2⟩
  | none => none

/-- `parseWagonAttributes`: implicit attributes from type codes plus explicit
attributes from a `#CODE[;CODE...]` suffix, deduplicated by code. -/
def parseWagonAttributes (token : Str) : List WagonAttribute :=
  let implicit : List WagonAttribute :=
    (if listIncludes token "FA".toList || listIncludes token "FZ".toList then
      [⟨"FZ".toList, "Family Zone".toList, "family".toList⟩] else []) ++
    (if listIncludes token "WL".toList then
      [⟨"WL".toList, "Sleeping compartments".toList, "sleep".toList⟩] else []) ++
    (if listIncludes token "CC".toList then
      [⟨"CC".toList, "Couchette Compartments".toList, "couchette".toList⟩] else []) ++
    (if (listIncludes token "WR".toList || listIncludes token "W1".toList ||
         listIncludes token "W2".toList) && !(listIncludes token "%".toList) then
      [⟨"WR".toList, "Restaurant".toList, "restaurant".toList⟩] else [])
  match offerMatch token with
  | none => implicit
  | some offerList =>
    (splitOnChar ';' offerList).foldl
      (fun attrs offer =>
        match offerMappingToken offer with
        | some p =>
          if attrs.any (fun a => a.code = offer) then attrs
          else attrs ++ [⟨offer, p.1, p.2⟩]
        | none => attrs)
      implicit

/-- `parseWagonStatus`: status strings extracted from a wagon token;
`Closed` suppresses the other three. -/
def parseWagonStatus (token : Str) : List Str :=
  if startsWithL token ['-'] || listIncludes token "(-".toList ||
     listIncludes token "@-".toList then
    [statusClosed]
  else
    (if startsWithL token ['>'] || listIncludes token ">".toList then [statusGroupBoarding] else []) ++
    (if startsWithL token ['='] || listIncludes token "=".toList then [statusReservedForTransit] else []) ++
    (if startsWithL token ['%'] || listIncludes token "%".toList then [statusUnserviced] else [])

/-- `parseVehicleToken`: decode one vehicle token into a wagon record, or
`none` for a blank token. -/
def parseVehicleToken (token : Str) (sector : Str) (position : Nat) : Option TrainWagon :=
  if token.isEmpty ∨ trimL token = [] then none
  else
    let statusCodes := parseWagonStatus token
    let clean0 :=
      if startsWithL token ['-'] then token.drop 1
      else if startsWithL token ['>'] || startsWithL token ['='] || startsWithL token ['%'] then
        token.dropWhile (fun c => c == '-' || c == '>' || c == '=' || c == '%')
      else token
    let cleanTokenWithParentheses := clean0
    let clean1 := if startsWithL clean0 ['('] then clean0.drop 1 else clean0
    let cleanToken := if endsWithL clean1 [')'] then clean1.dropLast else clean1
    let wagonType := determineWagonType cleanToken
    some
      { position := position
        number := (extractOrdnr cleanToken).getD []
        type := wagonType
        typeLabel := getTypeLabel wagonType
        classes := determineWagonClasses cleanTokenWithParentheses
        attributes := parseWagonAttributes cleanToken
        noAccessToPrevious := startsWithL cleanTokenWithParentheses ['('] || startsWithL token ['(']
        noAccessToNext := endsWithL cleanTokenWithParentheses [')'] || endsWithL token [')']
        noAccessMessage := none
        sector := sector
        statusCodes := statusCodes
        firstClassOccupancy := none
        secondClassOccupancy := none }

/-- Characters before the first `')'` of a string, or `none` if absent. -/
def firstCloseSplit : Str → Option Str
  | [] => none
  | c :: rest => if c = ')' then some [] else (firstCloseSplit rest).map (c :: ·)

/-- Leftmost match of `/\((.*?)\)/`; returns the full matched substring
(from a `'('` to the first `')'` after it). -/
def parenMatch : Str → Option Str
  | [] => none
  | c :: rest =>
    if c = '(' then
      match firstCloseSplit rest with
      | some mid => some ('(' :: mid ++ [')'])
      | none => parenMatch rest
    else parenMatch rest

/-- Tail matcher for `(?:#([A-Z;]+))?$`: `some none` when the optional group
is skipped at end of input, `some (some codes)` when it matches. -/
def gaTail2 (t : Str) : Option (Option Str) :=
  match t with
  | [] => some none
  | '#' :: u =>
    if ¬u.isEmpty ∧ u.all (fun ch => isUpperAZ ch || ch == ';') then some (some u) else none
  | _ => none

/-- Tail matcher for `(?:[:#]\d+)?(?:#([A-Z;]+))?$` (greedy digits; a shorter
digit capture can never help, so the only backtrack is skipping the group). -/
def gaTail1 (t : Str) : Option (Option Str) :=
  match t with
  | c :: u =>
    if c = ':' ∨ c = '#' then
      let ds := u.takeWhile Char.isDigit
      if ds.isEmpty then gaTail2 t
      else
        match gaTail2 (u.drop ds.length) with
        | some r => some r
        | none => gaTail2 t
    else gaTail2 t
  | [] => gaTail2 []

/-- Leftmost match of `/(?:\)|\])(?:[:#]\d+)?(?:#([A-Z;]+))?$/`; returns the
capture status of group 1. -/
def gaScan : Str → Option (Option Str)
  | [] => none
  | c :: rest =>
    if c = ')' ∨ c = ']' then
      match gaTail1 rest with
      | some r => some r
      | none => gaScan rest
    else gaScan rest

/-- Group-level attributes of a bracket group's content: the codes captured by
the trailing-suffix pattern, resolved through `getAttributeObject`. -/
def groupAttributesOf (gc : Str) : List WagonAttribute :=
  match gaScan gc with
  | some (some codes) => (splitOnChar ';' codes).filterMap getAttributeObject
  | _ => []

/-- Dedup-by-code addition of the group attributes to a wagon
(the loop `for (const attr of groupAttributes) ...`). -/
def addGroupAttrs (w : TrainWagon) (ga : List WagonAttribute) : TrainWagon :=
  ga.foldl
    (fun acc a =>
      if acc.attributes.any (fun b => decide (b.code = a.code)) then acc
      else { acc with attributes := acc.attributes ++ [a] })
    w

/-- First `@<LETTER>` occurrence in a string: the letter and the index of the
`'@'` (used both by `/@([A-Z])/` matches and by sector stripping). -/
def findSectorMarker : Str → Option (Char × Nat)
  | [] => none
  | c :: rest =>
    if (c == '@') && (match rest with | d :: _ => isUpperAZ d | [] => false) then
      match rest with
      | d :: _ => some (d, 0)
      | [] => none
    else (findSectorMarker rest).map (fun p => (p.1, p.2 + 1))

/-- The token loop of `parseVehicleGroup`: `ga` are the group attributes, `na`
records that the content matched `/\((.*?)\)/`, `ps`/`pe` that the matched
text starts with `'('` / ends with `')'`; `isFirst` tracks `i === 0`, the
list argument is `tokens.slice(i)`, so `rest = []` is `i === tokens.length-1`
and `rest.all (· ≠ VEHICLE)` is the `isLastRealWagon` test. -/
def pvgAux (ga : List WagonAttribute) (na ps pe : Bool) :
    List FormationToken → Str → Nat → Bool → List TrainWagon
  | [], _, _, _ => []
  | t :: rest, cur, pos, isFirst =>
    if t.type = TokenType.SECTOR then
      match findSectorMarker t.value with
      | some p => pvgAux ga na ps pe rest [p.1] pos false
      | none => pvgAux ga na ps pe rest cur pos false
    else if t.type = TokenType.VEHICLE ∨ t.type = TokenType.FICTITIOUS_WAGON then
      match parseVehicleToken t.value cur pos with
      | some w0 =>
        let w1 :=
          if rest.all (fun u => decide (u.type ≠ TokenType.VEHICLE)) ∧ ¬ga.isEmpty then
            addGroupAttrs w0 ga
          else w0
        let w2 :=
          if isFirst ∧ na ∧ ps then
            { w1 with noAccessToPrevious := true,
                      noAccessMessage := some "No passage to the neighbouring coach possible".toList }
          else w1
        let w3 :=
          if rest.isEmpty ∧ na ∧ pe then
            { w2 with noAccessToNext := true,
                      noAccessMessage := some "No passage to the neighbouring coach possible".toList }
          else w2
        w3 :: pvgAux ga na ps pe rest cur (pos + 1) false
      | none => pvgAux ga na ps pe rest cur (pos + 1) false
    else pvgAux ga na ps pe rest cur pos false

/-- `parseVehicleGroup`: wagons of one bracket group's inner text. -/
def parseVehicleGroup (groupContent : Str) (sector : Str) (startPosition : Nat) :
    List TrainWagon :=
  let m0 := parenMatch groupContent
  pvgAux (groupAttributesOf groupContent) m0.isSome
    (startsWithL (m0.getD []) ['(']) (endsWithL (m0.getD []) [')'])
    (tokenizeFormationString groupContent) sector startPosition true

/-- Insertion-ordered map from sector labels to wagon lists (JS `Map`). -/
abbrev SectorMap := List (Str × List TrainWagon)

/-- `Map.set`: update in place, or append a new key at the end. -/
def mapSet : SectorMap → Str → List TrainWagon → SectorMap
  | [], k, v => [(k, v)]
  | (k', v') :: rest, k, v =>
    if k' = k then (k, v) :: rest else (k', v') :: mapSet rest k v

/-- `Map.get` with a default (the `sectorMap.get(s) || []` idiom). -/
def mapGetD : SectorMap → Str → List TrainWagon → List TrainWagon
  | [], _, d => d
  | (k', v') :: rest, k, d => if k' = k then v' else mapGetD rest k d

/-- `Map.has`. -/
def mapHas : SectorMap → Str → Bool
  | [], _ => false
  | (k', _) :: rest, k => k' = k || mapHas rest k

/-- Removal of the first processed bracket group from a segment
(`segment.substring(0, startIdx) + segment.substring(endIdx)` with the JS
`substring` clamping of `-1 + 1 = 0` when the `']'` search fails). -/
def removeFirstBracketSpan (seg : Str) : Str :=
  match idxOf? seg '[' with
  | none =>
    match idxOf? seg ']' with
    | none => seg
    | some j => seg.drop (j + 1)
  | some si =>
    match idxOfFrom? seg ']' si with
    | none => seg.take si ++ seg
    | some j => seg.take si ++ seg.drop (j + 1)

/-- The `while`-loop of `processSegment` over bracket groups.  Each successful
iteration strictly shrinks the segment, so fuel `segment.length + 1` never
runs out; the fuel-exhausted branch only exists to make the function total. -/
def bracketLoop : Nat → Str → Str → Nat → SectorMap → Str × SectorMap × Nat
  | 0, seg, _, pos, m => (seg, m, pos)
  | fuel + 1, seg, cur, pos, m =>
    match extractBracketContent seg '[' ']' with
    | none => (seg, m, pos)
    | some content =>
      let wagons := parseVehicleGroup content cur pos
      if wagons.isEmpty then
        bracketLoop fuel (removeFirstBracketSpan seg) cur pos m
      else
        bracketLoop fuel (removeFirstBracketSpan seg) cur (pos + wagons.length)
          (mapSet m cur (mapGetD m cur [] ++ wagons))

/-- The individual-token loop of `processSegment` (tokens outside brackets,
split on `,` and `\`): `F` advances the position without a wagon, potential
wagon tokens are decoded and appended, everything else is ignored. -/
def tokenLoop : List Str → Str → Nat → SectorMap → SectorMap × Nat
  | [], _, pos, m => (m, pos)
  | t :: rest, cur, pos, m =>
    if trimL t = ['F'] then tokenLoop rest cur (pos + 1) m
    else if isPotentialWagonToken (trimL t) then
      match parseVehicleToken (trimL t) cur pos with
      | some w => tokenLoop rest cur (pos + 1) (mapSet m cur (mapGetD m cur [] ++ [w]))
      | none => tokenLoop rest cur pos m
    else tokenLoop rest cur pos m

/-- `processSegment`: bracket groups first, then individual tokens. -/
def processSegment (segment : Str) (cur : Str) (pos : Nat) (m : SectorMap) :
    SectorMap × Nat :=
  let r := bracketLoop (segment.length + 1) segment cur pos m
  let toks := (splitOnCB r.1).filter (fun t => decide (trimL t ≠ []))
  tokenLoop toks cur r.2.2 r.2.1

/-- The segment scanner of `formationString.split(/(?=@[A-Z])/)`: cut before
every `@<UPPER>` occurrence except at position 0 (ECMAScript `split` does not
cut on a zero-width match at the start of the current piece). -/
def splitSectorsAux : Bool → Str → Str → List Str
  | _, acc, [] => [acc.reverse]
  | canCut, acc, c :: rest =>
    if canCut && (c == '@') && (match rest with | d :: _ => isUpperAZ d | [] => false) then
      acc.reverse :: splitSectorsAux true [c] rest
    else splitSectorsAux true (c :: acc) rest

/-- Sector segmentation of the formation string. -/
def splitSectors (s : Str) : List Str := splitSectorsAux false [] s

/-- The per-segment loop of `parseFormationString` in the sector branch:
blank segments are skipped, a `@<LETTER>` match sets the current sector
(initialising its map entry) and is stripped, and the segment body is
processed. -/
def processSegments : List Str → Str → Nat → SectorMap → SectorMap × Nat
  | [], _, pos, m => (m, pos)
  | seg :: rest, cur, pos, m =>
    if trimL seg = [] then processSegments rest cur pos m
    else
      match findSectorMarker seg with
      | some p =>
        let cur2 := [p.1]
        let m2 := if mapHas m cur2 then m else mapSet m cur2 []
        let r := processSegment (seg.drop (p.2 + 2)) cur2 pos m2
        processSegments rest cur2 r.2 r.1
      | none =>
        let r := processSegment seg cur pos m
        processSegments rest cur r.2 r.1

/-- Test of `/\\@[A-Z]/` (escaped sector marker). -/
def hasEscapedSector : Str → Bool
  | [] => false
  | c :: rest =>
    (c = '\\' && (match rest with | '@' :: d :: _ => isUpperAZ d | _ => false)) ||
    hasEscapedSector rest

/-- Conversion of the sector map into sections, keeping only sectors with at
least one wagon, in insertion order. -/
def sectionsOfMap (m : SectorMap) : List TrainSection :=
  (m.filter (fun p => 0 < p.2.length)).map (fun p => ⟨p.1, p.2⟩)

def locoType : Str := "locomotive".toList

def msgNextCoach : Str := "No passage to next coach".toList

def msgPrevCoach : Str := "No passage to previous coach".toList

/-- The per-section message pre-pass of `finalizeTrainSections` (a wagon's own
flags set its message; `noAccessToNext` wins when both are set). -/
def setSectionMsgs (w : TrainWagon) : TrainWagon :=
  let w1 := if w.noAccessToPrevious then { w with noAccessMessage := some msgPrevCoach } else w
  if w1.noAccessToNext then { w1 with noAccessMessage := some msgNextCoach } else w1

/-- Unconditional clearing of a locomotive's status codes. -/
def clearLocoStatus (w : TrainWagon) : TrainWagon :=
  if w.type = locoType then { w with statusCodes := [] } else w

/-- The adjacent-pair adjustment of the stitching loop: symmetric no-access
propagation between non-locomotives, and clearing of the locomotive-side
flags when either neighbour is a locomotive. -/
def pairAdjust (prev w : TrainWagon) : TrainWagon × TrainWagon :=
  if (prev.noAccessToNext || w.noAccessToPrevious) ∧
      prev.type ≠ locoType ∧ w.type ≠ locoType then
    let pm := if prev.noAccessMessage.isNone then some msgNextCoach else prev.noAccessMessage
    let wm := if w.noAccessMessage.isNone then some msgPrevCoach else w.noAccessMessage
    ({ prev with noAccessToNext := true, noAccessMessage := pm },
     { w with noAccessToPrevious := true, noAccessMessage := wm })
  else if w.type = locoType ∨ prev.type = locoType then
    ((if prev.type = locoType then { prev with noAccessToNext := false, noAccessMessage := none }
      else prev),
     (if w.type = locoType then { w with noAccessToPrevious := false, noAccessMessage := none }
      else w))
  else (prev, w)

/-- Sequential stitching over the flat wagon list; `prev` is the wagon emitted
by the previous iteration (still mutable in the original code until the next
iteration finishes with it). -/
def stitchAux : TrainWagon → Nat → List TrainWagon → List TrainWagon
  | prev, _, [] => [prev]
  | prev, pos, w :: rest =>
    let w1 := clearLocoStatus { w with position := pos }
    let pr := pairAdjust prev w1
    pr.1 :: stitchAux pr.2 (pos + 1) rest

/-- The `allWagons.forEach` stitching pass: position reassignment, locomotive
status clearing and pairwise no-access handling. -/
def stitchWagons : List TrainWagon → List TrainWagon
  | [] => []
  | w :: rest => stitchAux (clearLocoStatus { w with position := 0 }) 1 rest

/-- Redistribution of the stitched flat wagon list back into the sections it
was flattened from (the original mutates shared objects in place). -/
def rebuildSections : List TrainSection → List TrainWagon → List TrainSection
  | [], _ => []
  | s :: rest, ws =>
    ⟨s.sector, ws.take s.wagons.length⟩ :: rebuildSections rest (ws.drop s.wagons.length)

/-- The first pass of `finalizeTrainSections`: drop empty sections and run the
per-section message pre-pass. -/
def filteredSectionsPre (sections : List TrainSection) : List TrainSection :=
  (sections.filter (fun s => 0 < s.wagons.length)).map
    (fun s => TrainSection.mk s.sector (s.wagons.map setSectionMsgs))

/-- `finalizeTrainSections`: drop empty sections, run the message pre-pass,
then stitch the flattened wagon sequence (the original mutates the shared
wagon objects; redistributing the stitched flat list is equivalent). -/
def finalizeTrainSections (sections : List TrainSection) : List TrainSection :=
  let filtered := filteredSectionsPre sections
  rebuildSections filtered (stitchWagons ((filtered.map (fun s => s.wagons)).flatten))

/-- The no-sector fallback of `parseFormationString`: the source tests
`if (!bracketContent)`, which is satisfied both when no bracket span was
found (`null`) and when the extracted content is the empty string (falsy in
JavaScript), and then falls back to the whole formation string. -/
def bracketContentFallback (fs : Str) : Str :=
  match extractBracketContent fs '[' ']' with
  | none => fs
  | some c => if c.isEmpty then fs else c

/-- `parseFormationString`: the main parser. -/
def parseFormationString (fs : Str) : List TrainSection :=
  if trimL fs = [] then []
  else
    let hasSectors := ('@' ∈ fs) ∨ hasEscapedSector fs
    let m :=
      if hasSectors then (processSegments (splitSectors fs) [] 0 []).1
      else (processSegment (bracketContentFallback fs) [] 0 []).1
    finalizeTrainSections (sectionsOfMap m)

/-- `determineTravelDirection`: orientation from the visual sector order and
the first vehicle's sector set. -/
def determineTravelDirection (formationString : Str) (sectors : Str) : Str :=
  if trimL formationString = [] ∨ sectors = [] then "unknown".toList
  else
    let visualSectors :=
      ((parseFormationString formationString).map (fun s => s.sector)).filter
        (fun s => decide (trimL s ≠ []))
    if visualSectors = [] then "unknown".toList
    else
      let vehicleSectors :=
        ((splitOnChar ',' sectors).map trimL).filter (fun s => decide (s ≠ []))
      if vehicleSectors = [] then "unknown".toList
      else
        if visualSectors.headD [] ∈ vehicleSectors then "left".toList
        else if visualSectors.getLastD [] ∈ vehicleSectors then "right".toList
        else "unknown".toList

/-- Inhabited default used by total indexing into wagon lists. -/
def defaultWagon : TrainWagon :=
  ⟨0, [], [], [], [], [], false, false, none, [], [], none, none⟩

/-- Flattened global wagon sequence of a section list. -/
def flatWagons (sections : List TrainSection) : List TrainWagon :=
  (sections.map (fun s => s.wagons)).flatten

/-- Total indexing into a wagon list. -/
def wagonAt (l : List TrainWagon) (i : Nat) : TrainWagon := l.getD i defaultWagon

/-- Amended C5 predicate: the label is a single uppercase letter occurring
right after an `'@'` somewhere in the formation string. -/
def isMarkerLetterOf (fs lab : Str) : Bool :=
  match lab with
  | [c] => isUpperAZ c && listIncludes fs ['@', c]
  | _ => false

/-- Does the string contain `@` immediately followed by an uppercase letter? -/
def hasAtUpper : Str → Bool
  | [] => false
  | c :: rest =>
    (c = '@' && (match rest with | d :: _ => isUpperAZ d | [] => false)) || hasAtUpper rest

/-- Flattened wagon sequence of the full parser output. -/
def parsedWagons (fs : Str) : List TrainWagon := flatWagons (parseFormationString fs)

/-- Adjacent-pair relation established by the stitching loop. -/
def RStitch (a b : TrainWagon) : Prop :=
  (a.type = locoType → a.noAccessToNext = false) ∧
  (b.type = locoType → b.noAccessToPrevious = false) ∧
  (a.type ≠ locoType → b.type ≠ locoType → a.noAccessToNext = b.noAccessToPrevious)

theorem pairAdjust_fst_type (p w : TrainWagon) : (pairAdjust p w).1.type = p.type := by
  unfold pairAdjust; split_ifs <;> simp

theorem pairAdjust_snd_type (p w : TrainWagon) : (pairAdjust p w).2.type = w.type := by
  unfold pairAdjust; split_ifs <;> simp

theorem pairAdjust_fst_status (p w : TrainWagon) :
    (pairAdjust p w).1.statusCodes = p.statusCodes := by
  unfold pairAdjust; split_ifs <;> simp

theorem pairAdjust_snd_status (p w : TrainWagon) :
    (pairAdjust p w).2.statusCodes = w.statusCodes := by
  unfold pairAdjust; split_ifs <;> simp

theorem pairAdjust_fst_prev (p w : TrainWagon) :
    (pairAdjust p w).1.noAccessToPrevious = p.noAccessToPrevious := by
  unfold pairAdjust; split_ifs <;> simp

theorem pairAdjust_fst_loco (p w : TrainWagon) (h : p.type = locoType) :
    (pairAdjust p w).1.noAccessToNext = false := by
  unfold pairAdjust; split_ifs <;> simp_all

theorem pairAdjust_snd_loco (p w : TrainWagon) (h : w.type = locoType) :
    (pairAdjust p w).2.noAccessToPrevious = false := by
  unfold pairAdjust; split_ifs <;> simp_all

theorem pairAdjust_symm (p w : TrainWagon) (hp : p.type ≠ locoType) (hw : w.type ≠ locoType) :
    (pairAdjust p w).1.noAccessToNext = (pairAdjust p w).2.noAccessToPrevious := by
  unfold pairAdjust; split_ifs <;> simp_all

theorem clearLoco_type (x : TrainWagon) : (clearLocoStatus x).type = x.type := by
  unfold clearLocoStatus; split_ifs <;> simp

theorem clearLoco_status_loco (x : TrainWagon) (h : x.type = locoType) :
    (clearLocoStatus x).statusCodes = [] := by
  unfold clearLocoStatus
  rw [if_pos h]

theorem stitchAux_head (p : TrainWagon) (pos : Nat) (l : List TrainWagon) :
    ∃ h t, stitchAux p pos l = h :: t ∧ h.noAccessToPrevious = p.noAccessToPrevious ∧
      h.type = p.type ∧ h.statusCodes = p.statusCodes := by
  cases l with
  | nil => exact ⟨p, [], rfl, rfl, rfl, rfl⟩
  | cons w r =>
    exact ⟨_, _, rfl, pairAdjust_fst_prev p _, pairAdjust_fst_type p _, pairAdjust_fst_status p _⟩

theorem stitchAux_chain (l : List TrainWagon) :
    ∀ p pos, List.Chain' RStitch (stitchAux p pos l) := by
  induction l with
  | nil => intro p pos; exact List.chain'_singleton p
  | cons w r ih =>
    intro p pos
    have hstep : stitchAux p pos (w :: r) =
        (pairAdjust p (clearLocoStatus { w with position := pos })).1 ::
          stitchAux (pairAdjust p (clearLocoStatus { w with position := pos })).2 (pos + 1) r := rfl
    rw [hstep, List.chain'_cons']
    refine ⟨?_, ih _ _⟩
    intro y hy
    obtain ⟨h, t, he, hprev, htype, _⟩ :=
      stitchAux_head (pairAdjust p (clearLocoStatus { w with position := pos })).2 (pos + 1) r
    rw [he] at hy
    simp only [List.head?_cons, Option.mem_def, Option.some.injEq] at hy
    subst hy
    refine ⟨?_, ?_, ?_⟩
    · intro hl
      rw [pairAdjust_fst_type] at hl
      exact pairAdjust_fst_loco _ _ hl
    · intro hl
      rw [htype, pairAdjust_snd_type] at hl
      rw [hprev]
      exact pairAdjust_snd_loco _ _ hl
    · intro h1 h2
      rw [pairAdjust_fst_type] at h1
      rw [htype, pairAdjust_snd_type] at h2
      rw [hprev]
      exact pairAdjust_symm _ _ h1 h2

theorem stitchWagons_chain (l : List TrainWagon) : List.Chain' RStitch (stitchWagons l) := by
  cases l with
  | nil => exact List.chain'_nil
  | cons w r => exact stitchAux_chain r _ 1

theorem stitchAux_length (l : List TrainWagon) :
    ∀ p pos, (stitchAux p pos l).length = l.length + 1 := by
  induction l with
  | nil => intro p pos; rfl
  | cons w r ih =>
    intro p pos
    have hstep : stitchAux p pos (w :: r) =
        (pairAdjust p (clearLocoStatus { w with position := pos })).1 ::
          stitchAux (pairAdjust p (clearLocoStatus { w with position := pos })).2 (pos + 1) r := rfl
    rw [hstep]
    simp [ih]

theorem stitchWagons_length (l : List TrainWagon) : (stitchWagons l).length = l.length := by
  cases l with
  | nil => rfl
  | cons w r => simp [stitchWagons, stitchAux_length]

theorem stitchAux_mem_loco (l : List TrainWagon) :
    ∀ p pos, (p.type = locoType → p.statusCodes = []) →
      ∀ w ∈ stitchAux p pos l, w.type = locoType → w.statusCodes = [] := by
  induction l with
  | nil =>
    intro p pos hp w hw
    have : w = p := by simpa [stitchAux] using hw
    subst this; exact hp
  | cons x r ih =>
    intro p pos hp w hw
    have hstep : stitchAux p pos (x :: r) =
        (pairAdjust p (clearLocoStatus { x with position := pos })).1 ::
          stitchAux (pairAdjust p (clearLocoStatus { x with position := pos })).2 (pos + 1) r := rfl
    rw [hstep] at hw
    rcases List.mem_cons.mp hw with hcase | hcase
    · subst hcase
      intro hl
      rw [pairAdjust_fst_type] at hl
      rw [pairAdjust_fst_status]
      exact hp hl
    · refine ih _ _ ?_ w hcase
      intro hl
      rw [pairAdjust_snd_type, clearLoco_type] at hl
      rw [pairAdjust_snd_status]
      exact clearLoco_status_loco _ (by simpa using hl)

theorem stitchWagons_mem_loco (l : List TrainWagon) :
    ∀ w ∈ stitchWagons l, w.type = locoType → w.statusCodes = [] := by
  cases l with
  | nil => intro w hw; simp [stitchWagons] at hw
  | cons x r =>
    refine stitchAux_mem_loco r _ 1 ?_
    intro hl
    rw [clearLoco_type] at hl
    exact clearLoco_status_loco _ (by simpa using hl)

theorem flatWagons_cons (s : TrainSection) (l : List TrainSection) :
    flatWagons (s :: l) = s.wagons ++ flatWagons l := by
  simp [flatWagons]

theorem rebuild_flat (secs : List TrainSection) :
    ∀ ws : List TrainWagon, ws.length = ((secs.map (fun s => s.wagons)).map List.length).sum →
      flatWagons (rebuildSections secs ws) = ws := by
  induction secs with
  | nil =>
    intro ws h
    simp only [List.map_nil, List.sum_nil, List.length_eq_zero] at h
    subst h
    rfl
  | cons s rest ih =>
    intro ws h
    simp only [List.map_cons, List.sum_cons] at h
    rw [show rebuildSections (s :: rest) ws =
      ⟨s.sector, ws.take s.wagons.length⟩ ::
        rebuildSections rest (ws.drop s.wagons.length) from rfl]
    rw [flatWagons_cons]
    rw [ih (ws.drop s.wagons.length) (by rw [List.length_drop]; omega)]
    exact List.take_append_drop _ _

theorem rebuild_mem (secs : List TrainSection) :
    ∀ ws : List TrainWagon, ws.length = ((secs.map (fun s => s.wagons)).map List.length).sum →
      ∀ s' ∈ rebuildSections secs ws,
        ∃ s, s ∈ secs ∧ s'.sector = s.sector ∧ s'.wagons.length = s.wagons.length := by
  induction secs with
  | nil => intro ws _ s' h; simp [rebuildSections] at h
  | cons s rest ih =>
    intro ws h s' hmem
    simp only [List.map_cons, List.sum_cons] at h
    rw [show rebuildSections (s :: rest) ws =
      ⟨s.sector, ws.take s.wagons.length⟩ ::
        rebuildSections rest (ws.drop s.wagons.length) from rfl] at hmem
    rcases List.mem_cons.mp hmem with hcase | hcase
    · subst hcase
      exact ⟨s, List.mem_cons_self s rest, rfl, by simp [List.length_take]; omega⟩
    · obtain ⟨s0, hs0, hsec, hlen⟩ :=
        ih (ws.drop s.wagons.length) (by rw [List.length_drop]; omega) s' hcase
      exact ⟨s0, List.mem_cons_of_mem s hs0, hsec, hlen⟩

theorem finalize_flat (sections : List TrainSection) :
    flatWagons (finalizeTrainSections sections) =
      stitchWagons (flatWagons (filteredSectionsPre sections)) := by
  refine rebuild_flat _ _ ?_
  rw [stitchWagons_length]
  simp [flatWagons]

theorem finalize_mem (sections : List TrainSection) :
    ∀ s' ∈ finalizeTrainSections sections,
      ∃ s, s ∈ filteredSectionsPre sections ∧ s'.sector = s.sector ∧
        s'.wagons.length = s.wagons.length := by
  refine rebuild_mem _ _ ?_
  rw [stitchWagons_length]
  simp [flatWagons]

theorem filteredPre_pos (sections : List TrainSection) (s : TrainSection)
    (h : s ∈ filteredSectionsPre sections) : 0 < s.wagons.length := by
  unfold filteredSectionsPre at h
  simp only [List.mem_map, List.mem_filter] at h
  obtain ⟨a, ⟨_, hpos⟩, rfl⟩ := h
  simpa using hpos

theorem finalize_nonempty (sections : List TrainSection) :
    ∀ s' ∈ finalizeTrainSections sections, s'.wagons ≠ [] := by
  intro s' h hnil
  obtain ⟨s, hs, _, hlen⟩ := finalize_mem sections s' h
  have := filteredPre_pos sections s hs
  rw [hnil] at hlen
  simp at hlen
  omega

theorem parse_shape (fs : Str) :
    parseFormationString fs = [] ∨
      ∃ m, parseFormationString fs = finalizeTrainSections (sectionsOfMap m) := by
  unfold parseFormationString
  split
  · exact Or.inl rfl
  · exact Or.inr ⟨_, rfl⟩

theorem wagonAt_eq_get (l : List TrainWagon) (i : Nat) (h : i < l.length) :
    wagonAt l i = l.get ⟨i, h⟩ := by
  show l.getD i defaultWagon = l.get ⟨i, h⟩
  rw [List.getD_eq_getElem, List.get_eq_getElem]

theorem parsedWagons_chain (fs : Str) : List.Chain' RStitch (parsedWagons fs) := by
  unfold parsedWagons
  rcases parse_shape fs with hp | ⟨m, hp⟩
  · rw [hp]; exact List.chain'_nil
  · rw [hp, finalize_flat]; exact stitchWagons_chain _

theorem parsedWagons_loco (fs : Str) :
    ∀ w ∈ parsedWagons fs, w.type = locoType → w.statusCodes = [] := by
  unfold parsedWagons
  rcases parse_shape fs with hp | ⟨m, hp⟩
  · rw [hp]; intro w hw; simp [flatWagons] at hw
  · rw [hp, finalize_flat]; exact stitchWagons_mem_loco _

/-- Claim C1: parsing `"[LK,1:12,2:34]"` yields exactly one section with the
empty sector label and three wagons in order: a locomotive with empty classes,
a first-class wagon number "12" with classes `['1']`, and a second-class wagon
number "34" with classes `['2']`, at final positions 0, 1 and 2. -/
theorem claim_C1 :
    (parseFormationString "[LK,1:12,2:34]".toList).length = 1 ∧
    (parseFormationString "[LK,1:12,2:34]".toList).map (fun s => s.sector) = [[]] ∧
    (parseFormationString "[LK,1:12,2:34]".toList).map
        (fun s => s.wagons.map (fun w => (w.type, w.number, w.classes, w.position))) =
      [[("locomotive".toList, [], [], 0),
        ("first-class".toList, "12".toList, ['1'], 1),
        ("second-class".toList, "34".toList, ['2'], 2)]] := by
  refine ⟨rfl, rfl, rfl⟩

/-- Claim C2: after `parseFormationString` (including the stitching pass of
`finalizeTrainSections`), adjacent wagons of the flattened global sequence
that are both non-locomotives satisfy
`previous.noAccessToNext = current.noAccessToPrevious`. -/
theorem claim_C2 (fs : Str) (i : Nat)
    (h : i + 1 < (parsedWagons fs).length)
    (h1 : (wagonAt (parsedWagons fs) i).type ≠ locoType)
    (h2 : (wagonAt (parsedWagons fs) (i + 1)).type ≠ locoType) :
    (wagonAt (parsedWagons fs) i).noAccessToNext =
      (wagonAt (parsedWagons fs) (i + 1)).noAccessToPrevious := by
  have hchain := parsedWagons_chain fs
  have hi : i < (parsedWagons fs).length - 1 := by omega
  have hr := List.chain'_iff_get.mp hchain i hi
  have hlt1 : i < (parsedWagons fs).length := by omega
  have e1 : wagonAt (parsedWagons fs) i = (parsedWagons fs).get ⟨i, hlt1⟩ :=
    wagonAt_eq_get _ _ hlt1
  have e2 : wagonAt (parsedWagons fs) (i + 1) = (parsedWagons fs).get ⟨i + 1, h⟩ :=
    wagonAt_eq_get _ _ h
  rw [e1, e2]
  rw [e1] at h1
  rw [e2] at h2
  exact hr.2.2 h1 h2

/-- Witness for C2 at the formation string `"1:10,(2:20)"`. -/
theorem claim_C2_witness :
    (wagonAt (parsedWagons "1:10,(2:20)".toList) 0).noAccessToNext =
      (wagonAt (parsedWagons "1:10,(2:20)".toList) 1).noAccessToPrevious :=
  claim_C2 "1:10,(2:20)".toList 0 (by decide) (by decide) (by decide)

/-- Counterexample to claim C3 as stated: in `parseFormationString "LK,(1:10)"`
the first wagon is a locomotive and the wagon following it keeps
`noAccessToPrevious = true` — the stitcher clears the locomotive's own flags,
not the neighbour's locomotive-facing flag. -/
theorem claim_C3_counterexample :
    (parsedWagons "LK,(1:10)".toList).length = 2 ∧
    (wagonAt (parsedWagons "LK,(1:10)".toList) 0).type = locoType ∧
    (wagonAt (parsedWagons "LK,(1:10)".toList) 1).noAccessToPrevious = true := by
  refine ⟨rfl, rfl, rfl⟩

/-- Claim C3 (amended): in the final output every locomotive has empty
`statusCodes` (regardless of its position, including single-wagon trains),
and for every adjacent pair a locomotive that has a preceding wagon has
`noAccessToPrevious = false` and a locomotive that has a following wagon has
`noAccessToNext = false`; the non-locomotive neighbour's flag on the
locomotive-facing side is not cleared. -/
theorem claim_C3_amended (fs : Str) :
    (∀ w ∈ parsedWagons fs, w.type = locoType → w.statusCodes = []) ∧
    (∀ i, i + 1 < (parsedWagons fs).length →
      (((wagonAt (parsedWagons fs) (i + 1)).type = locoType →
        (wagonAt (parsedWagons fs) (i + 1)).noAccessToPrevious = false) ∧
       ((wagonAt (parsedWagons fs) i).type = locoType →
        (wagonAt (parsedWagons fs) i).noAccessToNext = false))) := by
  refine ⟨parsedWagons_loco fs, fun i h => ?_⟩
  have hchain := parsedWagons_chain fs
  have hi : i < (parsedWagons fs).length - 1 := by omega
  have hr := List.chain'_iff_get.mp hchain i hi
  have hlt1 : i < (parsedWagons fs).length := by omega
  have e1 : wagonAt (parsedWagons fs) i = (parsedWagons fs).get ⟨i, hlt1⟩ :=
    wagonAt_eq_get _ _ hlt1
  have e2 : wagonAt (parsedWagons fs) (i + 1) = (parsedWagons fs).get ⟨i + 1, h⟩ :=
    wagonAt_eq_get _ _ h
  rw [e1, e2]
  exact ⟨hr.2.1, hr.1⟩

/-- Witness for the amended C3: the single-wagon train `"-LK"` (a closed
locomotive, so its pre-stitch status codes were non-empty) ends with empty
`statusCodes`, and in `"2:20,LK"` the trailing locomotive has
`noAccessToPrevious = false`. -/
theorem claim_C3_witness :
    (wagonAt (parsedWagons "-LK".toList) 0).statusCodes = [] ∧
    (wagonAt (parsedWagons "2:20,LK".toList) 1).noAccessToPrevious = false :=
  ⟨(claim_C3_amended "-LK".toList).1
      (wagonAt (parsedWagons "-LK".toList) 0) (by decide) (by decide),
   ((claim_C3_amended "2:20,LK".toList).2 0 (by decide)).1 (by decide)⟩

/-- Claim C4: every section returned by `parseFormationString` has at least
one wagon. -/
theorem claim_C4 (fs : Str) (s : TrainSection) (h : s ∈ parseFormationString fs) :
    s.wagons ≠ [] := by
  rcases parse_shape fs with hp | ⟨m, hp⟩
  · rw [hp] at h; simp at h
  · rw [hp] at h; exact finalize_nonempty _ _ h

/-- Witness for C4 at the formation string `"2:20"`. -/
theorem claim_C4_witness :
    ((parseFormationString "2:20".toList).headD ⟨[], []⟩).wagons ≠ [] :=
  claim_C4 "2:20".toList ((parseFormationString "2:20".toList).headD ⟨[], []⟩) (by decide)

theorem isPrefixOf_append_self (p s : Str) : p.isPrefixOf (p ++ s) = true := by
  induction p with
  | nil => simp [List.isPrefixOf]
  | cons a p ih => simp [List.isPrefixOf, ih]

theorem listIncludes_of_append (pre pat suf : Str) :
    listIncludes (pre ++ (pat ++ suf)) pat = true := by
  induction pre with
  | nil =>
    cases pat with
    | nil => cases suf with
      | nil => rfl
      | cons c s => simp [listIncludes, List.isPrefixOf]
    | cons p ps =>
      show listIncludes (p :: (ps ++ suf)) (p :: ps) = true
      simp only [listIncludes]
      rw [show p :: (ps ++ suf) = (p :: ps) ++ suf from rfl, isPrefixOf_append_self]
      simp
  | cons a pre ih =>
    show (List.isPrefixOf pat (a :: (pre ++ (pat ++ suf))) ||
      listIncludes (pre ++ (pat ++ suf)) pat) = true
    rw [ih]
    simp

theorem findSectorMarker_spec (seg : Str) :
    ∀ p, findSectorMarker seg = some p →
      isUpperAZ p.1 = true ∧ ∃ pre suf, seg = pre ++ '@' :: p.1 :: suf := by
  induction seg with
  | nil => intro p h; simp [findSectorMarker] at h
  | cons c rest ih =>
    intro p h
    simp only [findSectorMarker] at h
    split at h
    · rename_i hcond
      simp only [Bool.and_eq_true, beq_iff_eq] at hcond
      obtain ⟨hc, hd⟩ := hcond
      cases rest with
      | nil => simp at hd
      | cons d rest2 =>
        simp only [Option.some.injEq] at h
        subst h
        refine ⟨hd, [], rest2, ?_⟩
        rw [hc]
        simp

    · rename_i hcond
      simp only [Option.map_eq_some'] at h
      obtain ⟨q, hq, hpq⟩ := h
      obtain ⟨hu, pre, suf, hdec⟩ := ih q hq
      subst hpq
      refine ⟨hu, c :: pre, suf, ?_⟩
      rw [hdec]
      simp

theorem splitSectorsAux_decomp (s : Str) :
    ∀ canCut acc seg, seg ∈ splitSectorsAux canCut acc s →
      ∃ pre suf, acc.reverse ++ s = pre ++ seg ++ suf := by
  induction s with
  | nil =>
    intro canCut acc seg h
    simp only [splitSectorsAux, List.mem_singleton] at h
    subst h
    exact ⟨[], [], by simp⟩
  | cons c rest ih =>
    intro canCut acc seg h
    simp only [splitSectorsAux] at h
    split at h
    · rcases List.mem_cons.mp h with hcase | hcase
      · subst hcase
        exact ⟨[], c :: rest, by simp⟩
      · obtain ⟨pre, suf, hdec⟩ := ih true [c] seg hcase
        have hdec2 : c :: rest = pre ++ seg ++ suf := by simpa using hdec
        refine ⟨acc.reverse ++ pre, suf, ?_⟩
        rw [show acc.reverse ++ c :: rest = acc.reverse ++ (c :: rest) from rfl, hdec2]
        simp
    · obtain ⟨pre, suf, hdec⟩ := ih true (c :: acc) seg h
      refine ⟨pre, suf, ?_⟩
      rw [← hdec]
      simp

theorem mapSet_keys (P : Str → Prop) (m : SectorMap) (k : Str) (v : List TrainWagon)
    (hm : ∀ p ∈ m, P p.1) (hk : P k) : ∀ p ∈ mapSet m k v, P p.1 := by
  induction m with
  | nil =>
    intro p hp
    simp only [mapSet, List.mem_singleton] at hp
    subst hp
    exact hk
  | cons q rest ih =>
    intro p hp
    simp only [mapSet] at hp
    split at hp
    · rcases List.mem_cons.mp hp with hcase | hcase
      · subst hcase; exact hk
      · exact hm p (List.mem_cons_of_mem q hcase)
    · rcases List.mem_cons.mp hp with hcase | hcase
      · rw [hcase]; exact hm q (List.mem_cons_self q rest)
      · exact ih (fun r hr => hm r (List.mem_cons_of_mem q hr)) p hcase

theorem tokenLoop_keys (P : Str → Prop) (toks : List Str) :
    ∀ cur pos (m : SectorMap), (∀ p ∈ m, P p.1) → P cur →
      ∀ p ∈ (tokenLoop toks cur pos m).1, P p.1 := by
  induction toks with
  | nil => intro cur pos m hm _ p hp; exact hm p hp
  | cons t rest ih =>
    intro cur pos m hm hcur p hp
    simp only [tokenLoop] at hp
    split_ifs at hp with h1 h2
    · exact ih _ _ _ hm hcur p hp
    · cases hpt : parseVehicleToken (trimL t) cur pos with
      | some w =>
        rw [hpt] at hp
        exact ih _ _ _ (mapSet_keys P _ _ _ hm hcur) hcur p hp
      | none =>
        rw [hpt] at hp
        exact ih _ _ _ hm hcur p hp
    · exact ih _ _ _ hm hcur p hp

theorem bracketLoop_keys (P : Str → Prop) (fuel : Nat) :
    ∀ seg cur pos (m : SectorMap), (∀ p ∈ m, P p.1) → P cur →
      ∀ p ∈ (bracketLoop fuel seg cur pos m).2.1, P p.1 := by
  induction fuel with
  | zero => intro seg cur pos m hm _ p hp; exact hm p hp
  | succ fuel ih =>
    intro seg cur pos m hm hcur p hp
    simp only [bracketLoop] at hp
    split at hp
    · exact hm p hp
    · split_ifs at hp with hempty
      · exact ih _ _ _ _ hm hcur p hp
      · exact ih _ _ _ _ (mapSet_keys P _ _ _ hm hcur) hcur p hp

theorem processSegment_keys (P : Str → Prop) (seg cur : Str) (pos : Nat) (m : SectorMap)
    (hm : ∀ p ∈ m, P p.1) (hcur : P cur) :
    ∀ p ∈ (processSegment seg cur pos m).1, P p.1 := by
  unfold processSegment
  exact tokenLoop_keys P _ _ _ _ (bracketLoop_keys P _ _ _ _ _ hm hcur) hcur

theorem processSegments_keys (P : Str → Prop) (segs : List Str) :
    ∀ cur pos (m : SectorMap),
      (∀ seg ∈ segs, ∀ q, findSectorMarker seg = some q → P [q.1]) →
      (∀ p ∈ m, P p.1) → P cur →
      ∀ p ∈ (processSegments segs cur pos m).1, P p.1 := by
  induction segs with
  | nil => intro cur pos m _ hm _ p hp; exact hm p hp
  | cons seg rest ih =>
    intro cur pos m hseg hm hcur p hp
    have hrest : ∀ s ∈ rest, ∀ q, findSectorMarker s = some q → P [q.1] :=
      fun s hs => hseg s (List.mem_cons_of_mem seg hs)
    simp only [processSegments] at hp
    split_ifs at hp with hblank
    · exact ih _ _ _ hrest hm hcur p hp
    · cases hmark : findSectorMarker seg with
      | some q =>
        rw [hmark] at hp
        have hq : P [q.1] := hseg seg (List.mem_cons_self seg rest) q hmark
        have hm2 : ∀ p ∈ (if mapHas m [q.1] then m else mapSet m [q.1] []), P p.1 := by
          split_ifs
          · exact hm
          · exact mapSet_keys P _ _ _ hm hq
        exact ih _ _ _ hrest (processSegment_keys P _ _ _ _ hm2 hq) hq p hp
      | none =>
        rw [hmark] at hp
        exact ih _ _ _ hrest (processSegment_keys P _ _ _ _ hm hcur) hcur p hp

theorem sectionsOfMap_mem (m : SectorMap) (s : TrainSection) (h : s ∈ sectionsOfMap m) :
    ∃ p ∈ m, s.sector = p.1 := by
  unfold sectionsOfMap at h
  obtain ⟨q, hq, hqs⟩ := List.mem_map.mp h
  refine ⟨q, (List.mem_filter.mp hq).1, ?_⟩
  rw [← hqs]

theorem filteredPre_sector (sections : List TrainSection) (s : TrainSection)
    (h : s ∈ filteredSectionsPre sections) : ∃ s0 ∈ sections, s.sector = s0.sector := by
  unfold filteredSectionsPre at h
  obtain ⟨s0, hs0, hss⟩ := List.mem_map.mp h
  exact ⟨s0, (List.mem_filter.mp hs0).1, by rw [← hss]⟩

/-- Every sector label of the parser output is either empty or a letter that
follows an `'@'` in the input string. -/
theorem parse_sector_label (fs : Str) (s : TrainSection) (h : s ∈ parseFormationString fs) :
    s.sector = [] ∨ isMarkerLetterOf fs s.sector = true := by
  by_cases ht : trimL fs = []
  · simp [parseFormationString, ht] at h
  · have hkeys :
        ∀ p ∈ (if ('@' ∈ fs) ∨ hasEscapedSector fs then
            (processSegments (splitSectors fs) [] 0 []).1
          else (processSegment (bracketContentFallback fs) [] 0 []).1),
          p.1 = [] ∨ isMarkerLetterOf fs p.1 = true := by
      split_ifs
      · refine processSegments_keys
          (fun k => k = [] ∨ isMarkerLetterOf fs k = true) _ _ _ _ ?_
          (fun p hp => absurd hp (List.not_mem_nil p)) (Or.inl rfl)
        intro seg hseg q hq
        obtain ⟨pre1, suf1, hdec1⟩ := splitSectorsAux_decomp fs false [] seg hseg
        simp only [List.reverse_nil, List.nil_append] at hdec1
        obtain ⟨hu, pre2, suf2, hdec2⟩ := findSectorMarker_spec seg q hq
        right
        simp only [isMarkerLetterOf, hu, Bool.true_and]
        have : fs = (pre1 ++ pre2) ++ (['@', q.1] ++ (suf2 ++ suf1)) := by
          rw [hdec1, hdec2]; simp
        rw [this]
        exact listIncludes_of_append _ _ _
      · exact processSegment_keys
          (fun k => k = [] ∨ isMarkerLetterOf fs k = true) _ _ _ _
          (fun p hp => absurd hp (List.not_mem_nil p)) (Or.inl rfl)
    have hparse : parseFormationString fs =
        finalizeTrainSections (sectionsOfMap
          (if ('@' ∈ fs) ∨ hasEscapedSector fs then
            (processSegments (splitSectors fs) [] 0 []).1
          else (processSegment (bracketContentFallback fs) [] 0 []).1)) := by
      rw [parseFormationString, if_neg ht]
    rw [hparse] at h
    obtain ⟨s0, hs0, hsec0, _⟩ := finalize_mem _ s h
    obtain ⟨s1, hs1, hsec1⟩ := filteredPre_sector _ s0 hs0
    obtain ⟨p, hp, hsec2⟩ := sectionsOfMap_mem _ s1 hs1
    rw [hsec0, hsec1, hsec2]
    exact hkeys p hp

/-- Counterexample to claim C5 as stated: `"1:10@A[2:20]"` contains a sector
marker, yet the wagon before the first marker is emitted in a section whose
label is the empty string, which is not a letter following an `'@'`. -/
theorem claim_C5_counterexample :
    hasAtUpper "1:10@A[2:20]".toList = true ∧
    (parseFormationString "1:10@A[2:20]".toList).map (fun s => s.sector) = [[], ['A']] ∧
    ((parseFormationString "1:10@A[2:20]".toList).all
      (fun s => isMarkerLetterOf "1:10@A[2:20]".toList s.sector)) = false := by
  refine ⟨rfl, rfl, rfl⟩

/-- Claim C5 (amended): for a formation string containing `@` followed by an
uppercase letter, every produced section's label is either the empty string
(wagons seen before the first marker, or outside any marker) or an uppercase
letter that immediately follows an `'@'` somewhere in the input. -/
theorem claim_C5_amended (fs : Str) (s : TrainSection)
    (_hmark : hasAtUpper fs = true) (h : s ∈ parseFormationString fs) :
    s.sector = [] ∨ isMarkerLetterOf fs s.sector = true :=
  parse_sector_label fs s h

/-- Witness for the amended C5 at the formation string `"1:10@A[2:20]"`. -/
theorem claim_C5_witness :
    ((parseFormationString "1:10@A[2:20]".toList).headD ⟨[], []⟩).sector = [] ∨
      isMarkerLetterOf "1:10@A[2:20]".toList
        ((parseFormationString "1:10@A[2:20]".toList).headD ⟨[], []⟩).sector = true :=
  claim_C5_amended "1:10@A[2:20]".toList
    ((parseFormationString "1:10@A[2:20]".toList).headD ⟨[], []⟩) (by decide) (by decide)

theorem hasEscapedSector_mem (s : Str) (h : hasEscapedSector s = true) : '@' ∈ s := by
  induction s with
  | nil => simp [hasEscapedSector] at h
  | cons c rest ih =>
    simp only [hasEscapedSector, Bool.or_eq_true, Bool.and_eq_true] at h
    rcases h with ⟨_, hmatch⟩ | hrec
    · split at hmatch
      · exact List.mem_cons_of_mem c (List.mem_cons_self '@' _)
      · exact absurd hmatch (by simp)
    · exact List.mem_cons_of_mem c (ih hrec)

theorem ebcAux_no_open (o c : Char) (s : Str) (h : o ∉ s) :
    ∀ d, ebcAux o c s d none = none := by
  induction s with
  | nil => intro d; rfl
  | cons ch rest ih =>
    intro d
    have hne : ch ≠ o := fun he => h (he ▸ List.mem_cons_self ch rest)
    have h2 : o ∉ rest := fun hm => h (List.mem_cons_of_mem ch hm)
    simp only [ebcAux, if_neg hne]
    by_cases hc : ch = c
    · simp [hc, ih h2]
    · simp [hc, ih h2]

theorem extract_none_of_no_open (s : Str) (h : '[' ∉ s) :
    extractBracketContent s '[' ']' = none :=
  ebcAux_no_open '[' ']' s h 0

theorem processSegment_no_brackets (seg cur : Str) (pos : Nat) (m : SectorMap)
    (h : extractBracketContent seg '[' ']' = none) :
    processSegment seg cur pos m =
      tokenLoop ((splitOnCB seg).filter (fun t => decide (trimL t ≠ []))) cur pos m := by
  unfold processSegment
  rw [show bracketLoop (seg.length + 1) seg cur pos m = (seg, m, pos) by
    simp only [bracketLoop, h]]

theorem tokenLoop_empty_sector (toks : List Str) :
    ∀ pos (m : SectorMap), (m = [] ∨ ∃ ws, ws ≠ [] ∧ m = [([], ws)]) →
      ((tokenLoop toks [] pos m).1 = [] ∨
        ∃ ws, ws ≠ [] ∧ (tokenLoop toks [] pos m).1 = [([], ws)]) := by
  induction toks with
  | nil => intro pos m hm; exact hm
  | cons t rest ih =>
    intro pos m hm
    simp only [tokenLoop]
    split_ifs with h1 h2
    · exact ih _ _ hm
    · cases hpt : parseVehicleToken (trimL t) [] pos with
      | some w =>
        refine ih _ _ (Or.inr ?_)
        rcases hm with rfl | ⟨ws, hws, rfl⟩
        · exact ⟨[w], by simp, rfl⟩
        · exact ⟨ws ++ [w], by simp, by simp [mapSet, mapGetD]⟩
      | none => exact ih _ _ hm
    · exact ih _ _ hm

theorem finalize_nil : finalizeTrainSections [] = [] := rfl

theorem filteredPre_singleton (ws : List TrainWagon) (hws : ws ≠ []) :
    filteredSectionsPre [⟨[], ws⟩] = [⟨[], ws.map setSectionMsgs⟩] := by
  simp [filteredSectionsPre, List.filter_cons, List.length_pos.mpr hws]

/-- Claim C6: a formation string without `@` and without brackets parses to
the empty list or to exactly one section whose label is the empty string;
a blank string always parses to the empty list. -/
theorem claim_C6 (fs : Str) (h1 : '@' ∉ fs) (h2 : '[' ∉ fs) (_h3 : ']' ∉ fs) :
    (trimL fs = [] → parseFormationString fs = []) ∧
    (parseFormationString fs = [] ∨
      ∃ sec, parseFormationString fs = [sec] ∧ sec.sector = []) := by
  constructor
  · intro ht; simp [parseFormationString, ht]
  · by_cases ht : trimL fs = []
    · left; simp [parseFormationString, ht]
    · have hesc : hasEscapedSector fs = false := by
        cases hv : hasEscapedSector fs
        · rfl
        · exact absurd (hasEscapedSector_mem fs hv) h1
      have hbc : extractBracketContent fs '[' ']' = none := extract_none_of_no_open fs h2
      have hcond : ¬(('@' ∈ fs) ∨ hasEscapedSector fs = true) := by
        simp [h1, hesc]
      have hparse0 : parseFormationString fs =
          finalizeTrainSections (sectionsOfMap
            (if ('@' ∈ fs) ∨ hasEscapedSector fs then
              (processSegments (splitSectors fs) [] 0 []).1
            else (processSegment (bracketContentFallback fs) [] 0 []).1)) := by
        rw [parseFormationString, if_neg ht]
      have hbcf : bracketContentFallback fs = fs := by
        unfold bracketContentFallback
        rw [hbc]
      have hparse : parseFormationString fs =
          finalizeTrainSections (sectionsOfMap (processSegment fs [] 0 []).1) := by
        rw [hparse0, if_neg hcond, hbcf]
      have hshape := tokenLoop_empty_sector
        ((splitOnCB fs).filter (fun t => decide (trimL t ≠ []))) 0 [] (Or.inl rfl)
      rw [processSegment_no_brackets fs [] 0 [] hbc] at hparse
      rcases hshape with hmap | ⟨ws, hws, hmap⟩
      · left
        rw [hparse, hmap]
        rfl
      · right
        rw [hparse, hmap]
        have hsec : sectionsOfMap [([], ws)] = [⟨[], ws⟩] := by
          simp [sectionsOfMap, List.filter_cons, List.length_pos.mpr hws]
        rw [hsec]
        have hfil := filteredPre_singleton ws hws
        refine ⟨⟨[], (stitchWagons (flatWagons (filteredSectionsPre [⟨[], ws⟩]))).take
          (ws.map setSectionMsgs).length⟩, ?_, rfl⟩
        show finalizeTrainSections [⟨[], ws⟩] = _
        unfold finalizeTrainSections
        rw [hfil]
        rfl

/-- Witness for C6 at the formation string `"2:20,-1:30"`. -/
theorem claim_C6_witness :
    parseFormationString "2:20,-1:30".toList = [] ∨
      ∃ sec, parseFormationString "2:20,-1:30".toList = [sec] ∧ sec.sector = [] :=
  (claim_C6 "2:20,-1:30".toList (by decide) (by decide) (by decide)).2

theorem addGroupAttrs_type (ga : List WagonAttribute) :
    ∀ w : TrainWagon, (addGroupAttrs w ga).type = w.type := by
  induction ga with
  | nil => intro w; rfl
  | cons a ga ih =>
    intro w
    show (addGroupAttrs (if w.attributes.any (fun b => decide (b.code = a.code)) then w
      else { w with attributes := w.attributes ++ [a] }) ga).type = w.type
    rw [ih]
    split_ifs <;> rfl

/-- One step of `pvgAux` on a vehicle or fictitious token that decodes to a
wagon: the wagon is emitted (with group attributes added exactly when no
vehicle token follows, and boundary flags possibly set) and the loop
continues. -/
theorem pvgAux_cons_vehicle (ga : List WagonAttribute) (na ps pe : Bool)
    (tok : FormationToken) (rest : List FormationToken) (cur : Str) (pos : Nat)
    (first : Bool) (w : TrainWagon)
    (htype : tok.type = TokenType.VEHICLE ∨ tok.type = TokenType.FICTITIOUS_WAGON)
    (hpv : parseVehicleToken tok.value cur pos = some w) :
    ∃ w3, pvgAux ga na ps pe (tok :: rest) cur pos first =
        w3 :: pvgAux ga na ps pe rest cur (pos + 1) false ∧
      w3.attributes =
        (if rest.all (fun u => decide (u.type ≠ TokenType.VEHICLE)) ∧ ¬ga.isEmpty
          then addGroupAttrs w ga else w).attributes ∧
      w3.type = w.type := by
  have hne : tok.type ≠ TokenType.SECTOR := by
    rcases htype with h | h <;> simp [h]
  simp only [pvgAux, if_neg hne, if_pos htype, hpv]
  refine ⟨_, rfl, ?_, ?_⟩
  · split_ifs <;> simp [addGroupAttrs_type]
  · split_ifs <;> simp [addGroupAttrs_type]

/-- Counterexample to claim C7 as stated: in the bracket group
`"(1:10,F)#NF"` the group attribute `NF` is added both to the last real wagon
(`1:10`) and to the fictitious wagon decoded from the trailing `F` token. -/
theorem claim_C7_counterexample :
    (parseVehicleGroup "(1:10,F)#NF".toList [] 0).map
        (fun w => (w.type, w.number, w.attributes.map (fun a => a.code))) =
      [("first-class".toList, "10".toList, ["NF".toList]),
       ("wagon".toList, [], ["NF".toList])] ∧
    (tokenizeFormationString "(1:10,F)#NF".toList).map (fun t => t.type) =
      [TokenType.PARENTHESIS_OPEN, TokenType.VEHICLE, TokenType.COMMA,
       TokenType.FICTITIOUS_WAGON, TokenType.PARENTHESIS_CLOSE, TokenType.UNKNOWN] := by
  refine ⟨rfl, rfl⟩

/-- Claim C7 (amended): the group-level attributes are added to exactly those
wagons decoded from tokens not followed by any further vehicle-classified
token — the last real (non-fictitious) wagon and any fictitious wagons after
it; a wagon whose token is followed by a later vehicle token never receives
them. -/
theorem claim_C7_amended :
    (∀ gc sector pos, parseVehicleGroup gc sector pos =
      pvgAux (groupAttributesOf gc) (parenMatch gc).isSome
        (startsWithL ((parenMatch gc).getD []) ['('])
        (endsWithL ((parenMatch gc).getD []) [')'])
        (tokenizeFormationString gc) sector pos true) ∧
    (∀ ga na ps pe (tok : FormationToken) rest (cur : Str) pos first w,
      (tok.type = TokenType.VEHICLE ∨ tok.type = TokenType.FICTITIOUS_WAGON) →
      parseVehicleToken tok.value cur pos = some w →
      ((rest.any (fun u => decide (u.type = TokenType.VEHICLE)) = true →
        (pvgAux ga na ps pe (tok :: rest) cur pos first).head?.map
          (fun x => x.attributes) = some w.attributes) ∧
       (rest.all (fun u => decide (u.type ≠ TokenType.VEHICLE)) = true →
        (pvgAux ga na ps pe (tok :: rest) cur pos first).head?.map
          (fun x => x.attributes) = some (addGroupAttrs w ga).attributes))) := by
  constructor
  · intro gc sector pos; rfl
  · intro ga na ps pe tok rest cur pos first w htype hpv
    obtain ⟨w3, hstep, hattr, _⟩ :=
      pvgAux_cons_vehicle ga na ps pe tok rest cur pos first w htype hpv
    rw [hstep]
    simp only [List.head?_cons, Option.map_some']
    constructor
    · intro hany
      have hall : rest.all (fun u => decide (u.type ≠ TokenType.VEHICLE)) = false := by
        obtain ⟨u, hu, hut⟩ := List.any_eq_true.mp hany
        refine List.all_eq_false.mpr ⟨u, hu, ?_⟩
        simp at hut
        simp [hut]
      have hcond : ¬((rest.all fun u => decide (u.type ≠ TokenType.VEHICLE)) = true ∧
          ¬ga.isEmpty = true) := by
        intro hc
        rw [hall] at hc
        exact absurd hc.1 (by simp)
      rw [if_neg hcond] at hattr
      rw [hattr]
    · intro hall
      by_cases hga : ga.isEmpty
      · have : ga = [] := List.isEmpty_iff.mp hga
        subst this
        rw [if_neg (by simp)] at hattr
        rw [hattr]
        rfl
      · rw [if_pos ⟨hall, hga⟩] at hattr
        rw [hattr]

/-- Witness for the amended C7: a vehicle token followed only by a comma token
receives the group attribute `NF`. -/
theorem claim_C7_witness :
    (pvgAux [⟨"NF".toList, "Low Floor Access".toList, "accessible".toList⟩]
        false false false
        [⟨TokenType.VEHICLE, "1:10".toList, 0⟩, ⟨TokenType.COMMA, [','], 1⟩]
        [] 0 true).head?.map (fun x => x.attributes) =
      some [⟨"NF".toList, "Low Floor Access".toList, "accessible".toList⟩] :=
  (claim_C7_amended.2 [⟨"NF".toList, "Low Floor Access".toList, "accessible".toList⟩]
    false false false ⟨TokenType.VEHICLE, "1:10".toList, 0⟩
    [⟨TokenType.COMMA, [','], 1⟩] [] 0 true _ (Or.inl rfl) rfl).2 (by decide)

theorem parse_blank (fs : Str) (h : trimL fs = []) : parseFormationString fs = [] := by
  simp [parseFormationString, h]

/-- Claim C8: `determineTravelDirection` returns `"unknown"` when the list of
non-blank visual sector labels derived from the formation string is empty or
when the vehicle's comma-split trimmed sector set is empty; otherwise it
returns `"left"` when that set contains the first visual sector, else
`"right"` when it contains the last visual sector, else `"unknown"`. -/
theorem claim_C8 (fs secs : Str) :
    determineTravelDirection fs secs =
      (if ((parseFormationString fs).map (fun s => s.sector)).filter
            (fun s => decide (trimL s ≠ [])) = [] then "unknown".toList
       else if ((splitOnChar ',' secs).map trimL).filter (fun s => decide (s ≠ [])) = [] then
         "unknown".toList
       else if (((parseFormationString fs).map (fun s => s.sector)).filter
            (fun s => decide (trimL s ≠ []))).headD [] ∈
            ((splitOnChar ',' secs).map trimL).filter (fun s => decide (s ≠ [])) then
         "left".toList
       else if (((parseFormationString fs).map (fun s => s.sector)).filter
            (fun s => decide (trimL s ≠ []))).getLastD [] ∈
            ((splitOnChar ',' secs).map trimL).filter (fun s => decide (s ≠ [])) then
         "right".toList
       else "unknown".toList) := by
  unfold determineTravelDirection
  by_cases h1 : trimL fs = []
  · rw [if_pos (Or.inl h1), parse_blank fs h1]
    rfl
  · by_cases h2 : secs = []
    · rw [if_pos (Or.inr h2)]
      subst h2
      by_cases h3 : ((parseFormationString fs).map (fun s => s.sector)).filter
          (fun s => decide (trimL s ≠ [])) = []
      · rw [if_pos h3]
      · rw [if_neg h3,
          if_pos (show ((splitOnChar ',' ([] : Str)).map trimL).filter
            (fun s => decide (s ≠ [])) = [] from rfl)]
    · rw [if_neg (show ¬(trimL fs = [] ∨ secs = []) from fun hc => hc.elim h1 h2)]

/-- The wagon decoded from a bare `F` token. -/
def fictWagon (cur : Str) (pos : Nat) : TrainWagon :=
  ⟨pos, [], "wagon".toList, "Coach".toList, [], [], false, false, none, cur, [], none, none⟩

theorem parseVehicleToken_F (cur : Str) (pos : Nat) :
    parseVehicleToken ['F'] cur pos = some (fictWagon cur pos) := rfl

/-- Claim C9: a standalone `F` token handled by the individual-token loop of
`processSegment` advances the position counter without appending a wagon,
while an `F` token inside a vehicle group is decoded by `parseVehicleToken`
into a wagon of generic type `"wagon"` that the group loop appends to the
output; concretely, `"@A[1:10,F]"` puts that wagon in section `A` while in
`"[1:10,F]"` (where the bracket content is processed token-by-token) the `F`
contributes no wagon. -/
theorem claim_C9 :
    (∀ (t : Str) rest (cur : Str) pos (m : SectorMap), trimL t = ['F'] →
      tokenLoop (t :: rest) cur pos m = tokenLoop rest cur (pos + 1) m) ∧
    (∀ (cur : Str) pos, (parseVehicleToken ['F'] cur pos).map (fun w => w.type) =
      some "wagon".toList) ∧
    (∀ ga na ps pe tp rest (cur : Str) pos first,
      (pvgAux ga na ps pe (⟨TokenType.FICTITIOUS_WAGON, ['F'], tp⟩ :: rest) cur pos
          first).head?.map (fun w => w.type) = some "wagon".toList ∧
      (pvgAux ga na ps pe (⟨TokenType.FICTITIOUS_WAGON, ['F'], tp⟩ :: rest) cur pos
          first).length = (pvgAux ga na ps pe rest cur (pos + 1) false).length + 1) ∧
    ((parseFormationString "@A[1:10,F]".toList).map
        (fun s => (s.sector, s.wagons.map (fun w => w.type))) =
      [(['A'], ["first-class".toList, "wagon".toList])] ∧
     (parseFormationString "[1:10,F]".toList).map
        (fun s => (s.sector, s.wagons.map (fun w => w.type))) =
      [([], ["first-class".toList])]) := by
  refine ⟨?_, ?_, ?_, rfl, rfl⟩
  · intro t rest cur pos m h
    simp only [tokenLoop, if_pos h]
  · intro cur pos
    rfl
  · intro ga na ps pe tp rest cur pos first
    obtain ⟨w3, hstep, _, htype3⟩ :=
      pvgAux_cons_vehicle ga na ps pe ⟨TokenType.FICTITIOUS_WAGON, ['F'], tp⟩ rest cur pos
        first (fictWagon cur pos) (Or.inr rfl) (parseVehicleToken_F cur pos)
    constructor
    · rw [hstep]
      simp only [List.head?_cons, Option.map_some']
      rw [htype3]
      rfl
    · rw [hstep]
      simp

/-- Witness for C9: a standalone `F` token advances the position counter from
5 to 6 and leaves the sector map unchanged. -/
theorem claim_C9_witness :
    tokenLoop [['F']] [] 5 [] = tokenLoop [] [] 6 [] :=
  claim_C9.1 ['F'] [] [] 5 [] (by decide)

theorem singleton_isPrefixOf_mem (c : Char) (v : Str)
    (h : List.isPrefixOf [c] v = true) : c ∈ v := by
  cases v with
  | nil => simp [List.isPrefixOf] at h
  | cons a t =>
    simp only [List.isPrefixOf, Bool.and_eq_true, beq_iff_eq] at h
    rw [h.1]
    exact List.mem_cons_self a t

theorem listIncludes_mem (v : Str) (c : Char) (cs : Str)
    (h : listIncludes v (c :: cs) = true) : c ∈ v := by
  induction v with
  | nil => simp [listIncludes] at h
  | cons a t ih =>
    simp only [listIncludes, Bool.or_eq_true] at h
    rcases h with h | h
    · simp only [List.isPrefixOf, Bool.and_eq_true, beq_iff_eq] at h
      rw [h.1]
      exact List.mem_cons_self a t
    · exact List.mem_cons_of_mem a (ih h)

theorem dropWhile_all {p : Char → Bool} (v : Str)
    (h : ∀ x ∈ v.dropWhile p, p x = true) : ∀ x ∈ v, p x = true := by
  induction v with
  | nil => intro x hx; simp at hx
  | cons a t ih =>
    intro x hx
    by_cases hpa : p a = true
    · have hd : (a :: t).dropWhile p = t.dropWhile p := by simp [List.dropWhile_cons, hpa]
      rcases List.mem_cons.mp hx with rfl | hx2
      · exact hpa
      · exact ih (fun y hy => h y (by rw [hd]; exact hy)) x hx2
    · have hd : (a :: t).dropWhile p = a :: t := by
        rw [List.dropWhile_cons, if_neg hpa]
      exact h x (by rw [hd]; exact hx)

theorem trimL_eq_nil_all (v : Str) (h : trimL v = []) :
    ∀ x ∈ v, x.isWhitespace = true := by
  unfold trimL at h
  rw [List.reverse_eq_nil_iff] at h
  have h2 := List.dropWhile_eq_nil_iff.mp h
  refine dropWhile_all v ?_
  intro x hx
  exact h2 x (List.mem_reverse.mpr hx)

theorem isPotentialWagonToken_some (v cur : Str) (pos : Nat)
    (h : isPotentialWagonToken v = true) : (parseVehicleToken v cur pos).isSome = true := by
  have hex : ∃ c, c ∈ v ∧ c.isWhitespace = false := by
    simp only [isPotentialWagonToken, Bool.or_eq_true, startsWithL] at h
    rcases h with ((((h | h) | h) | h) | h)
    · exact ⟨'-', singleton_isPrefixOf_mem _ _ h, by decide⟩
    · exact ⟨'>', singleton_isPrefixOf_mem _ _ h, by decide⟩
    · exact ⟨'=', singleton_isPrefixOf_mem _ _ h, by decide⟩
    · exact ⟨'%', singleton_isPrefixOf_mem _ _ h, by decide⟩
    · obtain ⟨code, hcode, hinc⟩ := List.any_eq_true.mp h
      simp only [wagonTypeCodes, List.mem_cons, List.not_mem_nil, or_false] at hcode
      rcases hcode with rfl | rfl | rfl | rfl | rfl | rfl | rfl | rfl | rfl | rfl | rfl | rfl | rfl <;>
        exact ⟨_, listIncludes_mem _ _ _ hinc, by decide⟩
  obtain ⟨c, hc, hcw⟩ := hex
  have hne : ¬(v.isEmpty = true ∨ trimL v = []) := by
    rintro (hv | hv)
    · rw [List.isEmpty_iff.mp hv] at hc
      simp at hc
    · rw [trimL_eq_nil_all v hv c hc] at hcw
      simp at hcw
  simp only [parseVehicleToken, if_neg hne]
  rfl

/-- Claim C10: a free-text buffer (never starting with `'@'` and never the
bare string `"F"`, which the tokenizer handles separately) is classified
`VEHICLE` by `createToken` exactly when it starts with `'-'`, `'>'`, `'='` or
`'%'` or contains one of the thirteen wagon type codes, and is classified
`UNKNOWN` otherwise; a token satisfying the predicate always decodes to a
wagon, while `UNKNOWN` tokens are skipped by the group loop and non-wagon
tokens are skipped by the individual-token loop. -/
theorem claim_C10 :
    (∀ (v : Str) (p : Nat), v ≠ ['F'] → startsWithL v ['@'] = false →
      (((createToken v p).type = TokenType.VEHICLE ↔
        (startsWithL v ['-'] = true ∨ startsWithL v ['>'] = true ∨
         startsWithL v ['='] = true ∨ startsWithL v ['%'] = true ∨
         ∃ code ∈ ["1".toList, "2".toList, "12".toList, "CC".toList, "FA".toList,
            "WL".toList, "WR".toList, "W1".toList, "W2".toList, "LK".toList,
            "D".toList, "K".toList, "X".toList], listIncludes v code = true)) ∧
       ((createToken v p).type = TokenType.UNKNOWN ↔
        ¬(startsWithL v ['-'] = true ∨ startsWithL v ['>'] = true ∨
          startsWithL v ['='] = true ∨ startsWithL v ['%'] = true ∨
          ∃ code ∈ ["1".toList, "2".toList, "12".toList, "CC".toList, "FA".toList,
             "WL".toList, "WR".toList, "W1".toList, "W2".toList, "LK".toList,
             "D".toList, "K".toList, "X".toList], listIncludes v code = true)))) ∧
    (∀ (v cur : Str) (pos : Nat), isPotentialWagonToken v = true →
      (parseVehicleToken v cur pos).isSome = true) ∧
    (∀ ga na ps pe (t : FormationToken) rest (cur : Str) pos first,
      t.type = TokenType.UNKNOWN →
      pvgAux ga na ps pe (t :: rest) cur pos first = pvgAux ga na ps pe rest cur pos false) ∧
    (∀ (t : Str) rest (cur : Str) pos (m : SectorMap),
      trimL t ≠ ['F'] → isPotentialWagonToken (trimL t) = false →
      tokenLoop (t :: rest) cur pos m = tokenLoop rest cur pos m) := by
  refine ⟨?_, isPotentialWagonToken_some, ?_, ?_⟩
  · intro v p hne hat
    have hbridge : isPotentialWagonToken v = true ↔
        (startsWithL v ['-'] = true ∨ startsWithL v ['>'] = true ∨
         startsWithL v ['='] = true ∨ startsWithL v ['%'] = true ∨
         ∃ code ∈ ["1".toList, "2".toList, "12".toList, "CC".toList, "FA".toList,
            "WL".toList, "WR".toList, "W1".toList, "W2".toList, "LK".toList,
            "D".toList, "K".toList, "X".toList], listIncludes v code = true) := by
      simp only [isPotentialWagonToken, Bool.or_eq_true, List.any_eq_true, wagonTypeCodes]
      tauto
    have hc1 : ¬(startsWithL v ['@'] = true ∧ v.length > 1) := by simp [hat]
    cases hpot : isPotentialWagonToken v with
    | true =>
      have hcond := hbridge.mp hpot
      have hct : (createToken v p).type = TokenType.VEHICLE := by
        simp [createToken, hc1, hne, hpot]
      rw [hct]
      exact ⟨iff_of_true rfl hcond, iff_of_false (by simp) (not_not_intro hcond)⟩
    | false =>
      have hncond : ¬_ := fun hc => absurd (hbridge.mpr hc) (by simp [hpot])
      have hct : (createToken v p).type = TokenType.UNKNOWN := by
        simp [createToken, hc1, hne, hpot]
      rw [hct]
      exact ⟨iff_of_false (by simp) hncond, iff_of_true rfl hncond⟩
  · intro ga na ps pe t rest cur pos first h
    have h1 : t.type ≠ TokenType.SECTOR := by simp [h]
    have h2 : ¬(t.type = TokenType.VEHICLE ∨ t.type = TokenType.FICTITIOUS_WAGON) := by
      simp [h]
    simp only [pvgAux, if_neg h1, if_neg h2]
  · intro t rest cur pos m h1 h2
    have h3 : ¬(isPotentialWagonToken (trimL t) = true) := by simp [h2]
    simp only [tokenLoop, if_neg h1, if_neg h3]

/-- Witness for C10: `"1:10"` is classified `VEHICLE`, `"LK"` decodes to a
wagon, and the non-wagon token `"??"` is skipped by the token loop. -/
theorem claim_C10_witness :
    (createToken "1:10".toList 0).type = TokenType.VEHICLE ∧
    (parseVehicleToken "LK".toList [] 0).isSome = true ∧
    tokenLoop ["??".toList] [] 3 [] = tokenLoop [] [] 3 [] := by
  refine ⟨?_, claim_C10.2.1 "LK".toList [] 0 (by decide),
    claim_C10.2.2.2 "??".toList [] [] 3 [] (by decide) (by decide)⟩
  exact ((claim_C10.1 "1:10".toList 0 (by decide) (by decide)).1).mpr (by decide)
